import Mathlib

/-!
Shallow embedding of `src/question_4_genai/GenAI.py` (a clinical-trial
question-answering script) and proofs about the claims of its specification.

Conventions of the embedding:
* A dataframe is a `List Row`; a cell is `Option String` (`none` models a
  pandas missing value / NaN).  `pandas.astype(str)` turns a missing value
  into the literal text "nan", which `toText` reproduces.
* Python `str.lower` / `str.strip` / `re.findall` are modelled on their
  ASCII fragment (`pyLower`, `pyStrip`, `pyFindAll`); the data this program
  manipulates (column names, schema text, CDISC-style values) is ASCII.
* `json.dumps` / `json.loads` are modelled by `jsonDumps2` / `jsonParse`
  over a JSON fragment (null, booleans, integers, strings with the standard
  escapes, arrays, objects); floats and lone surrogates are outside the
  fragment and make `jsonParse` fail.
* `s.str.contains(re.escape(v), case=False)` is modelled as literal
  case-insensitive substring containment (`re.escape` makes the pattern
  literal), and `re.search(r"\{.*\}", raw, re.S)` as "first opening brace
  to last closing brace" (`extractObj`).
-/

namespace GenAI

/-! ## Python string helpers (ASCII fragment) -/

/-- Whitespace characters stripped by Python `str.strip()` (ASCII fragment). -/
def wsChar (c : Char) : Bool :=
  c == ' ' || c == '\t' || c == '\n' || c == '\r' || c == '\x0b' || c == '\x0c'

/-- The uppercase-to-lowercase table of ASCII letters. -/
def upperLower : List (Char × Char) :=
  [('A', 'a'), ('B', 'b'), ('C', 'c'), ('D', 'd'), ('E', 'e'), ('F', 'f'),
   ('G', 'g'), ('H', 'h'), ('I', 'i'), ('J', 'j'), ('K', 'k'), ('L', 'l'),
   ('M', 'm'), ('N', 'n'), ('O', 'o'), ('P', 'p'), ('Q', 'q'), ('R', 'r'),
   ('S', 's'), ('T', 't'), ('U', 'u'), ('V', 'v'), ('W', 'w'), ('X', 'x'),
   ('Y', 'y'), ('Z', 'z')]

/-- Python `str.lower` on one character (ASCII fragment): the 26 uppercase
ASCII letters map to their lowercase forms, everything else is unchanged. -/
def pyLowerChar (c : Char) : Char :=
  ((upperLower.find? (fun p => p.1 == c)).map Prod.snd).getD c

/-- Python `str.lower` (ASCII fragment). -/
def pyLower (s : String) : String := String.mk (s.data.map pyLowerChar)

/-- Python `str.strip()` with no argument (ASCII whitespace fragment). -/
def pyStrip (s : String) : String :=
  String.mk (((s.data.dropWhile wsChar).reverse.dropWhile wsChar).reverse)

/-- Character class of `re.findall(r"[a-z0-9]+", ...)`. -/
def alnumLower (c : Char) : Bool :=
  ('a' ≤ c && c ≤ 'z') || ('0' ≤ c && c ≤ '9')

/-- Character class of `re.findall(r"[A-Za-z0-9]+", ...)`. -/
def alnumAny (c : Char) : Bool :=
  ('a' ≤ c && c ≤ 'z') || ('A' ≤ c && c ≤ 'Z') || ('0' ≤ c && c ≤ '9')

/-- Worker for `pyFindAll`: split into maximal runs of characters satisfying
`p`; `cur` is the current run, reversed. -/
def tokensAux (p : Char → Bool) : List Char → List Char → List String
  | [], cur => if cur.isEmpty then [] else [String.mk cur.reverse]
  | c :: rest, cur =>
    if p c then tokensAux p rest (c :: cur)
    else if cur.isEmpty then tokensAux p rest []
    else String.mk cur.reverse :: tokensAux p rest []

/-- Python `re.findall` for a character-class-plus pattern such as
`[a-z0-9]+`: the list of maximal runs of characters in the class. -/
def pyFindAll (p : Char → Bool) (s : String) : List String := tokensAux p s.data []

/-- Substring test on character lists (Python `needle in hay`). -/
def listIn (n : List Char) : List Char → Bool
  | [] => n.isEmpty
  | c :: t => n.isPrefixOf (c :: t) || listIn n t

/-- Python `needle in hay` for strings. -/
def pyIn (needle hay : String) : Bool := listIn needle.data hay.data

/-- Python `sep.join(parts)`. -/
def joinSep (sep : String) : List String → String
  | [] => ""
  | [x] => x
  | x :: y :: rest => x ++ sep ++ joinSep sep (y :: rest)

/-- Python `l[-k:]`: the last `k` elements (all of them if fewer). -/
def lastN (k : Nat) (l : List String) : List String := l.drop (l.length - k)

/-- Worker for `pyUnique`; `seen` records values already emitted. -/
def pyUniqueAux (seen : List String) : List String → List String
  | [] => []
  | x :: xs =>
    if seen.contains x then pyUniqueAux seen xs
    else x :: pyUniqueAux (x :: seen) xs

/-- `pandas.Series.unique`: deduplicate keeping the first occurrence order. -/
def pyUnique (l : List String) : List String := pyUniqueAux [] l

/-- Stable insertion for `sortLenDesc`: `x` is placed before the first
element whose length does not exceed `x`'s, so that elements of equal
length keep their original relative order. -/
def insertLenDesc (x : String) : List String → List String
  | [] => [x]
  | y :: ys => if y.length ≤ x.length then x :: y :: ys else y :: insertLenDesc x ys

/-- Python `sorted(vals, key=len, reverse=True)`: stable sort by descending
length (stability makes the result unique, so this insertion sort agrees
with Python's Timsort). -/
def sortLenDesc (l : List String) : List String := l.foldr insertLenDesc []

/-! ## Data model -/

/-- The five schema columns of the adverse-event dataset. -/
inductive Col where
  | USUBJID | AETERM | AESOC | AESEV | AEDECOD
deriving DecidableEq, Repr

/-- Column name as the Python string key. -/
def Col.name : Col → String
  | .USUBJID => "USUBJID"
  | .AETERM => "AETERM"
  | .AESOC => "AESOC"
  | .AESEV => "AESEV"
  | .AEDECOD => "AEDECOD"

/-- `SCHEMA[col]`: the human-readable description of each column. -/
def schemaDesc : Col → String
  | .USUBJID => "Unique subject id (RETURN ONLY; do not choose as a filter column)"
  | .AETERM => "Adverse event term (e.g., Headache, Fatigue)"
  | .AESOC => "Body system / System Organ Class (e.g., Skin, Cardiac, Eye disorders)"
  | .AESEV => "Severity / intensity (e.g., MILD, MODERATE, SEVERE)"
  | .AEDECOD => "Dictionary-derived term (coded)"

/-- `MAPPABLE_COLS = list(SCHEMA.keys())`, in declaration order. -/
def MAPPABLE_COLS : List String :=
  ["USUBJID", "AETERM", "AESOC", "AESEV", "AEDECOD"]

/-- One dataset row; `none` is a missing (NaN) cell. -/
structure Row where
  usubjid : Option String
  aeterm : Option String
  aesoc : Option String
  aesev : Option String
  aedecod : Option String
deriving DecidableEq, Repr

/-- `df[c]` for one row. -/
def getCol (r : Row) : Col → Option String
  | .USUBJID => r.usubjid
  | .AETERM => r.aeterm
  | .AESOC => r.aesoc
  | .AESEV => r.aesev
  | .AEDECOD => r.aedecod

/-! ## Matcher/Scorer (`ClinicalTrialDataAgent._mock_llm`) -/

/-- `[c for c in MAPPABLE_COLS if c != "USUBJID"]`, in schema order. -/
def colsToScore : List Col := [.AETERM, .AESOC, .AESEV, .AEDECOD]

/-- `set(re.findall(r"[a-z0-9]+", s))` — the deduplicated token list
(only the size of intersections is ever used, so first-occurrence order
is an adequate model of a Python set). -/
def tokSet (p : Char → Bool) (s : String) : List String := pyUnique (pyFindAll p s)

/-- `len(qtok & stok)` where `qtok` is already deduplicated. -/
def interCount (qtok stok : List String) : Nat :=
  (qtok.filter (fun t => stok.contains t)).length

/-- Score of one candidate column:
`len(qtok & stok) + (2 if col.lower() in q else 0)` where
`stok = set(re.findall(r"[a-z0-9]+", (col + " " + desc).lower()))`. -/
def scoreCol (question : String) (c : Col) : Nat :=
  let q := pyLower question
  let qtok := tokSet alnumLower q
  let stok := pyFindAll alnumLower (pyLower (c.name ++ " " ++ schemaDesc c))
  interCount qtok stok + (if pyIn (pyLower c.name) q then 2 else 0)

/-- The scoring loop: start from `("AETERM", -1)` and replace the best
candidate only on a strictly greater score. -/
def bestFold (question : String) : Col × Int :=
  colsToScore.foldl
    (fun best c => if (scoreCol question c : Int) > best.2 then (c, (scoreCol question c : Int)) else best)
    (Col.AETERM, -1)

/-- `best_col` chosen by `_mock_llm`. -/
def mockCol (question : String) : Col := (bestFold question).1

/-- `df[best_col].dropna().astype(str).unique().tolist()`. -/
def colVals (df : List Row) (c : Col) : List String :=
  pyUnique (df.filterMap (fun r => getCol r c))

/-- `sorted(vals, key=len, reverse=True)[:5000]`. -/
def candVals (df : List Row) (c : Col) : List String :=
  (sortLenDesc (colVals df c)).take 5000

/-- `re.search(r'"([^"]+)"', question)`: the first non-empty run of
non-quote characters enclosed in double quotes. -/
def firstQuoted : List Char → Option String
  | [] => none
  | c :: rest =>
    if c = '"' then
      let inner := rest.takeWhile (fun x => x ≠ '"')
      if inner.isEmpty then firstQuoted rest
      else if inner.length < rest.length then some (String.mk inner)
      else firstQuoted rest
    else firstQuoted rest

/-- `" ".join(re.findall(r"[A-Za-z0-9]+", question)[-3:])`. -/
def lastThreeJoined (question : String) : String :=
  joinSep " " (lastN 3 (pyFindAll alnumAny question))

/-- `filter_value` chosen by `_mock_llm`: first candidate value appearing
case-insensitively in the question (`next(..., "")`), with the quoted /
last-three-tokens fallback when that is empty (`if not val`). -/
def mockVal (df : List Row) (question : String) : String :=
  let q := pyLower question
  let val := ((candVals df (mockCol question)).find? (fun v => pyIn (pyLower v) q)).getD ""
  if val = "" then
    match firstQuoted question.data with
    | some s => s
    | none => lastThreeJoined question
  else val

/-! ## JSON model (`json.dumps` / `json.loads` fragment) -/

/-- Lowercase hex digit, as emitted by `json.dumps` unicode escapes. -/
def hexDigit (n : Nat) : Char :=
  if n < 10 then Char.ofNat (48 + n) else Char.ofNat (87 + n)

/-- A `\uXXXX` escape for a code unit `n < 0x10000`. -/
def uEsc4 (n : Nat) : List Char :=
  ['\\', 'u', hexDigit (n / 4096 % 16), hexDigit (n / 256 % 16),
   hexDigit (n / 16 % 16), hexDigit (n % 16)]

/-- `json.dumps` escaping of one character (default `ensure_ascii=True`):
short escapes for the usual controls, `\uXXXX` for other controls and
non-ASCII, surrogate pairs above the BMP. -/
def escChar (c : Char) : List Char :=
  if c == '"' then ['\\', '"']
  else if c == '\\' then ['\\', '\\']
  else if c == '\n' then ['\\', 'n']
  else if c == '\r' then ['\\', 'r']
  else if c == '\t' then ['\\', 't']
  else if c == '\x08' then ['\\', 'b']
  else if c == '\x0c' then ['\\', 'f']
  else if c.toNat < 0x20 then uEsc4 c.toNat
  else if c.toNat ≤ 0x7e then [c]
  else if c.toNat ≤ 0xffff then uEsc4 c.toNat
  else uEsc4 (0xd800 + (c.toNat - 0x10000) / 0x400) ++ uEsc4 (0xdc00 + (c.toNat - 0x10000) % 0x400)

/-- `json.dumps` of a string body (without the surrounding quotes). -/
def jsonEscape (s : String) : String := String.mk (s.data.flatMap escChar)

/-- `json.dumps({"target_column": col, "filter_value": val})` with the
default separators and insertion order. -/
def jsonDumps2 (col val : String) : String :=
  "\x7b\"target_column\": \"" ++ jsonEscape col ++ "\", \"filter_value\": \"" ++
    jsonEscape val ++ "\"\x7d"

/-- `ClinicalTrialDataAgent._mock_llm`: the JSON text it returns. -/
def mockLlm (df : List Row) (question : String) : String :=
  jsonDumps2 (mockCol question).name (mockVal df question)

/-- Decoded JSON values (fragment: numbers restricted to integers). -/
inductive JsonVal where
  | jnull
  | jbool (b : Bool)
  | jint (n : Int)
  | jstr (s : String)
  | jarr (l : List JsonVal)
  | jobj (l : List (String × JsonVal))

/-- JSON whitespace accepted between tokens by `json.loads`. -/
def jsonWsChar (c : Char) : Bool :=
  c == ' ' || c == '\t' || c == '\n' || c == '\r'

/-- Value of one hex digit. -/
def hexVal (c : Char) : Option Nat :=
  if '0' ≤ c && c ≤ '9' then some (c.toNat - 48)
  else if 'a' ≤ c && c ≤ 'f' then some (c.toNat - 87)
  else if 'A' ≤ c && c ≤ 'F' then some (c.toNat - 55)
  else none

/-- The short escapes accepted by `json.loads` after a backslash. -/
def jsonUnescape (e : Char) : Option Char :=
  if e = '"' then some '"'
  else if e = '\\' then some '\\'
  else if e = '/' then some '/'
  else if e = 'n' then some '\n'
  else if e = 't' then some '\t'
  else if e = 'r' then some '\r'
  else if e = 'b' then some '\x08'
  else if e = 'f' then some '\x0c'
  else none

/-- Parse a JSON string body after the opening quote: returns the decoded
characters and the input after the closing quote.  Fuel-indexed for clean
structural recursion; every step consumes at least one character, so fuel
`length + 1` (what the callers pass) always suffices.  Raw controls are
rejected (`json.loads` strict mode); `\uXXXX` escapes are decoded with
surrogate-pair combination (lone surrogates are outside the fragment,
since a Lean `Char` cannot hold them). -/
def parseJStrAux : Nat → List Char → Option (List Char × List Char)
  | 0, _ => none
  | fuel + 1, l =>
    match l with
    | [] => none
    | c :: r =>
      if c = '"' then some ([], r)
      else if c = '\\' then
        match r with
        | [] => none
        | e :: r2 =>
          if e = 'u' then
            match r2 with
            | h1 :: h2 :: h3 :: h4 :: r3 =>
              (match hexVal h1, hexVal h2, hexVal h3, hexVal h4 with
               | some a, some b, some c2, some d =>
                 let n := 4096 * a + 256 * b + 16 * c2 + d
                 if 0xd800 ≤ n && n ≤ 0xdbff then
                   match r3 with
                   | e2 :: u2 :: g1 :: g2 :: g3 :: g4 :: r4 =>
                     if e2 = '\\' && u2 = 'u' then
                       match hexVal g1, hexVal g2, hexVal g3, hexVal g4 with
                       | some a2, some b2, some c3, some d2 =>
                         let m := 4096 * a2 + 256 * b2 + 16 * c3 + d2
                         if 0xdc00 ≤ m && m ≤ 0xdfff then
                           (parseJStrAux fuel r4).map
                             (fun p =>
                               (Char.ofNat (0x10000 + (n - 0xd800) * 0x400 + (m - 0xdc00)) :: p.1,
                                p.2))
                         else none
                       | _, _, _, _ => none
                     else none
                   | _ => none
                 else if 0xdc00 ≤ n && n ≤ 0xdfff then none
                 else (parseJStrAux fuel r3).map (fun p => (Char.ofNat n :: p.1, p.2))
               | _, _, _, _ => none)
            | _ => none
          else
            match jsonUnescape e with
            | some d => (parseJStrAux fuel r2).map (fun p => (d :: p.1, p.2))
            | none => none
      else if c.toNat < 0x20 then none
      else (parseJStrAux fuel r).map (fun p => (c :: p.1, p.2))

/-- Parse a JSON integer literal (floats are outside the fragment and
fail, as does a leading zero, per the JSON grammar). -/
def parseJInt (l : List Char) : Option (Int × List Char) :=
  let neg := l.head? = some '-'
  let l1 := if neg then l.tail else l
  let ds := l1.takeWhile Char.isDigit
  let rest := l1.drop ds.length
  if ds.isEmpty then none
  else if ds.length > 1 && ds.head? = some '0' then none
  else
    if rest.head? = some '.' ∨ rest.head? = some 'e' ∨ rest.head? = some 'E' then none
    else
      let v : Int := ds.foldl (fun acc c => 10 * acc + (c.toNat - 48 : Int)) 0
      some (if neg then -v else v, rest)

mutual

/-- `json.loads` value parser (fuel-indexed; every recursive call first
consumes at least one character, so fuel `length + 1` always suffices). -/
def parseJVal : Nat → List Char → Option (JsonVal × List Char)
  | 0, _ => none
  | fuel + 1, l =>
    match l.dropWhile jsonWsChar with
    | [] => none
    | c :: r =>
      if c = '"' then (parseJStrAux (r.length + 1) r).map (fun p => (JsonVal.jstr (String.mk p.1), p.2))
      else if c = 'n' then
        (if "ull".data.isPrefixOf r then some (.jnull, r.drop 3) else none)
      else if c = 't' then
        (if "rue".data.isPrefixOf r then some (.jbool true, r.drop 3) else none)
      else if c = 'f' then
        (if "alse".data.isPrefixOf r then some (.jbool false, r.drop 4) else none)
      else if c = '\x7b' then
        (match r.dropWhile jsonWsChar with
         | [] => none
         | c2 :: r2 => if c2 = '\x7d' then some (.jobj [], r2) else parseJMembers fuel (c2 :: r2) [])
      else if c = '[' then
        (match r.dropWhile jsonWsChar with
         | [] => none
         | c2 :: r2 => if c2 = ']' then some (.jarr [], r2) else parseJElems fuel (c2 :: r2) [])
      else if c = '-' || c.isDigit then
        (parseJInt (c :: r)).map (fun p => (JsonVal.jint p.1, p.2))
      else none

/-- Insertion into the dict being built by `json.loads`: a duplicate key
overwrites the value but keeps the first occurrence's position, as a
Python dict does. -/
def insertKV (acc : List (String × JsonVal)) (k : String) (v : JsonVal) :
    List (String × JsonVal) :=
  if acc.any (fun p => p.1 == k) then
    acc.map (fun p => if p.1 == k then (p.1, v) else p)
  else acc ++ [(k, v)]

/-- Object-member loop of `json.loads` (after the opening brace, first
member not yet consumed). -/
def parseJMembers : Nat → List Char → List (String × JsonVal) →
    Option (JsonVal × List Char)
  | 0, _, _ => none
  | fuel + 1, l, acc =>
    match l.dropWhile jsonWsChar with
    | [] => none
    | c :: r =>
      if c = '"' then
        match parseJStrAux (r.length + 1) r with
        | none => none
        | some (k, r2) =>
          match r2.dropWhile jsonWsChar with
          | [] => none
          | c2 :: r3 =>
            if c2 = ':' then
              match parseJVal fuel r3 with
              | none => none
              | some (v, r4) =>
                match r4.dropWhile jsonWsChar with
                | [] => none
                | c3 :: r5 =>
                  if c3 = ',' then parseJMembers fuel r5 (insertKV acc (String.mk k) v)
                  else if c3 = '\x7d' then
                    some (JsonVal.jobj (insertKV acc (String.mk k) v), r5)
                  else none
            else none
      else none

/-- Array-element loop of `json.loads`. -/
def parseJElems : Nat → List Char → List JsonVal → Option (JsonVal × List Char)
  | 0, _, _ => none
  | fuel + 1, l, acc =>
    match parseJVal fuel l with
    | none => none
    | some (v, r) =>
      match r.dropWhile jsonWsChar with
      | [] => none
      | c :: r2 =>
        if c = ',' then parseJElems fuel r2 (acc ++ [v])
        else if c = ']' then some (JsonVal.jarr (acc ++ [v]), r2)
        else none

end

/-- `json.loads`: parse one value and require only whitespace after it. -/
def jsonParse (s : String) : Option JsonVal :=
  match parseJVal (s.data.length + 1) s.data with
  | some (v, rest) => if (rest.dropWhile jsonWsChar).isEmpty then some v else none
  | none => none

/-! ## Query Interpreter (`ClinicalTrialDataAgent.parse_question`) -/

/-- Word character of Python `re` (`\w`, ASCII fragment). -/
def wordChar (c : Char) : Bool := alnumAny c || c == '_'

/-- Does `needle` occur at the head of `l` with a word boundary after it? -/
def matchHere (needle : List Char) (l : List Char) : Bool :=
  needle.isPrefixOf l &&
    (match l.drop needle.length with
     | [] => true
     | c :: _ => ! wordChar c)

/-- Scan for `\b(usubjid|subject id)\b` over a lowered character list;
`before` is the character preceding the current position. -/
def scanSubjWord (before : Option Char) : List Char → Bool
  | [] => false
  | c :: rest =>
    (((match before with
       | none => true
       | some b => ! wordChar b) &&
      (matchHere "usubjid".data (c :: rest) || matchHere "subject id".data (c :: rest))) ||
     scanSubjWord (some c) rest)

/-- `re.search(r"\b(usubjid|subject id)\b", question, re.I)` as a Boolean:
both alternatives start and end with word characters, so the surrounding
`\b` require a non-word (or absent) character on each side. -/
def hasSubjectWord (question : String) : Bool :=
  scanSubjWord none (pyLower question).data

/-- `re.search(r"\{.*\}", raw, re.S)`: with a greedy dot-matches-all
pattern this is the substring from the first opening brace to the last
closing brace after it (if any). -/
def extractObj (raw : String) : Option String :=
  match raw.data.dropWhile (fun c => c ≠ '\x7b') with
  | [] => none
  | c :: rest =>
    match rest.reverse.dropWhile (fun c => c ≠ '\x7d') with
    | [] => none
    | revTail => some (String.mk (c :: revTail.reverse))

/-- Python `dict.get(k, dflt)` for the dict built by `json.loads` from an
object literal: later duplicate keys overwrite earlier ones. -/
def dictGet (kvs : List (String × JsonVal)) (k : String) (dflt : JsonVal) : JsonVal :=
  match kvs.reverse.find? (fun p => p.1 == k) with
  | some p => p.2
  | none => dflt

/-- Python `repr` of a string (fragment: quote selection as in CPython,
backslash / quote / `\n` / `\r` / `\t` short escapes, `\xHH` for other
controls; other characters kept). -/
def pyReprStr (s : String) : String :=
  let q : Char := if s.data.contains '\'' && ! s.data.contains '"' then '"' else '\''
  let esc : Char → List Char := fun c =>
    if c == '\\' then ['\\', '\\']
    else if c == q then ['\\', q]
    else if c == '\n' then ['\\', 'n']
    else if c == '\r' then ['\\', 'r']
    else if c == '\t' then ['\\', 't']
    else if c.toNat < 0x20 then ['\\', 'x', hexDigit (c.toNat / 16), hexDigit (c.toNat % 16)]
    else [c]
  String.mk (q :: s.data.flatMap esc ++ [q])

/-- Python `repr` of a decoded JSON value. -/
def pyReprV : JsonVal → String
  | .jnull => "None"
  | .jbool true => "True"
  | .jbool false => "False"
  | .jint n => toString n
  | .jstr s => pyReprStr s
  | .jarr l => "[" ++ joinSep ", " (l.attach.map (fun x => pyReprV x.1)) ++ "]"
  | .jobj l =>
    "\x7b" ++
      joinSep ", " (l.attach.map (fun x => pyReprStr x.1.1 ++ ": " ++ pyReprV x.1.2)) ++
      "\x7d"
decreasing_by
  · have := List.sizeOf_lt_of_mem x.2; simp at *; omega
  · rcases x with ⟨⟨k, v⟩, hm⟩
    have := List.sizeOf_lt_of_mem hm; simp at *; omega

/-- Python `str` of a decoded JSON value: the identity on strings and
`repr` on everything else (`str` and `repr` agree on `None`, booleans,
integers, lists and dicts). -/
def pyStr : JsonVal → String
  | .jstr s => s
  | v => pyReprV v

/-- Errors that can escape `parse_question`. -/
inductive PyErr where
  /-- Any exception raised by the collaborator call `self._call_llm`. -/
  | collab
  /-- `json.JSONDecodeError` from `json.loads`. -/
  | jsonDecode
  /-- `AttributeError` from `obj.get` when `obj` is not a dict. -/
  | attrGet
deriving DecidableEq, Repr

/-- The validation tail of `parse_question` (source lines 62-73): read the
two keys with `str(...).strip()`, override an unmappable column to
"AETERM", and override "USUBJID" to "AETERM" unless the question contains
the words "usubjid" or "subject id". -/
def postValidate (question : String) (kvs : List (String × JsonVal)) : String × String :=
  let col := pyStrip (pyStr (dictGet kvs "target_column" (.jstr "")))
  let val := pyStrip (pyStr (dictGet kvs "filter_value" (.jstr "")))
  let col := if ¬ MAPPABLE_COLS.contains col then "AETERM" else col
  let col := if col = "USUBJID" && ! hasSubjectWord question then "AETERM" else col
  (col, val)

/-- `ClinicalTrialDataAgent.parse_question`.  `useLlm` models
`self.use_llm`; `llmResp` models the outcome of `self._call_llm(question)`
(`Except.error` = the call raised).  Note the source has no handler around
the collaborator call, so its failure propagates. -/
def parseQuestion (useLlm : Bool) (llmResp : Except Unit String) (df : List Row)
    (question : String) : Except PyErr (String × String) := do
  let raw ←
    if useLlm then
      match llmResp with
      | .ok r => pure r
      | .error _ => throw PyErr.collab
    else
      pure (mockLlm df question)
  let payload := (extractObj raw).getD raw
  match jsonParse payload with
  | none => throw PyErr.jsonDecode
  | some j =>
    match j with
    | .jobj kvs => pure (postValidate question kvs)
    | _ => throw PyErr.attrGet

/-! ## Query Executor (`execute`) -/

/-- `pandas.astype(str)` on one cell: a missing value becomes the literal
text "nan". -/
def toText : Option String → String
  | none => "nan"
  | some s => s

/-- The non-missing values of a column, in row order (with repetitions):
`df[c].dropna().astype(str)`. -/
def presentVals (df : List Row) (c : Col) : List String :=
  df.filterMap (fun r => getCol r c)

/-- `set(df[c].dropna().astype(str).str.lower().unique())`. -/
def uniqLower (df : List Row) (c : Col) : List String :=
  pyUnique ((presentVals df c).map pyLower)

/-- Does the exact-match branch apply: `filter_value.lower() in uniq`. -/
def exactMode (df : List Row) (c : Col) (fv : String) : Bool :=
  (uniqLower df c).contains (pyLower fv)

/-- The row mask of `execute`: case-insensitive equality in exact mode,
else case-insensitive literal substring containment (the filter value is
`re.escape`d in the source, so the pattern is literal; `na=False` is inert
because `astype(str)` has already replaced missing values by "nan"). -/
def rowMask (df : List Row) (c : Col) (fv : String) (r : Row) : Bool :=
  if exactMode df c fv then pyLower (toText (getCol r c)) == pyLower fv
  else pyIn (pyLower fv) (pyLower (toText (getCol r c)))

/-- `df.loc[mask]`. -/
def selectedRows (df : List Row) (c : Col) (fv : String) : List Row :=
  df.filter (rowMask df c fv)

/-- `execute(df, target_column, filter_value)`: count and list of unique
subject ids among the selected rows (missing ids dropped, first-occurrence
order kept by `unique()`). -/
def execute (df : List Row) (c : Col) (fv : String) : Nat × List String :=
  let usubjids := pyUnique ((selectedRows df c fv).filterMap (fun r => r.usubjid))
  (usubjids.length, usubjids)

/-! ## Example datasets used by witnesses and counterexamples -/

/-- A small dataset in the shape of `metadata/adae.csv`. -/
def dfEx : List Row :=
  [⟨some "S1", some "Headache", some "Nervous system disorders", some "MILD", some "Headache"⟩,
   ⟨some "S2", some "Headache", some "Nervous system disorders", some "MODERATE", some "Headache"⟩,
   ⟨some "S3", some "Erythema", some "Skin disorders", some "MILD", some "Erythema"⟩,
   ⟨some "S1", some "Fatigue", some "General disorders", some "SEVERE", some "Fatigue"⟩]

/-- One row whose severity is missing: exercises the "nan" coercion. -/
def dfMissing : List Row := [⟨some "S1", some "Headache", none, none, none⟩]

/-- One row whose term is the empty string: exercises `if not val`. -/
def dfEmptyVal : List Row := [⟨some "S1", some "", none, none, none⟩]

/-! ## Basic lemmas about the helpers -/

theorem contains_iff_mem {l : List String} {x : String} :
    l.contains x = true ↔ x ∈ l := by
  simp [List.contains]

theorem mem_pyUniqueAux {seen l : List String} {x : String} :
    x ∈ pyUniqueAux seen l ↔ x ∈ l ∧ x ∉ seen := by
  induction l generalizing seen with
  | nil => simp [pyUniqueAux]
  | cons y ys ih =>
    have hc := @contains_iff_mem seen y
    cases h : seen.contains y with
    | true =>
      have hy : y ∈ seen := hc.mp h
      simp only [pyUniqueAux, h, if_true, ih, List.mem_cons]
      constructor
      · rintro ⟨h1, h2⟩; exact ⟨Or.inr h1, h2⟩
      · rintro ⟨h1 | h1, h2⟩
        · exact absurd (h1 ▸ hy) h2
        · exact ⟨h1, h2⟩
    | false =>
      have hy : y ∉ seen := fun hm => by rw [hc.mpr hm] at h; cases h
      simp only [pyUniqueAux, h, Bool.false_eq_true, if_false, ih, List.mem_cons]
      constructor
      · rintro (rfl | ⟨h1, h2⟩)
        · exact ⟨Or.inl rfl, hy⟩
        · exact ⟨Or.inr h1, fun hx => h2 (Or.inr hx)⟩
      · rintro ⟨h1 | h1, h2⟩
        · exact Or.inl h1
        · by_cases hxy : x = y
          · exact Or.inl hxy
          · exact Or.inr ⟨h1, fun hx => hx.elim hxy h2⟩

theorem nodup_pyUniqueAux (seen l : List String) : (pyUniqueAux seen l).Nodup := by
  induction l generalizing seen with
  | nil => simp [pyUniqueAux]
  | cons y ys ih =>
    by_cases h : seen.contains y
    · simp only [pyUniqueAux, h, if_pos]; exact ih seen
    · simp only [pyUniqueAux, h, if_neg, Bool.false_eq_true, not_false_iff]
      rw [List.nodup_cons]
      refine ⟨fun hy => ?_, ih (y :: seen)⟩
      have := (mem_pyUniqueAux.mp hy).2
      exact this (List.mem_cons_self _ _)

theorem mem_pyUnique {l : List String} {x : String} :
    x ∈ pyUnique l ↔ x ∈ l := by
  unfold pyUnique; rw [mem_pyUniqueAux]; simp

theorem nodup_pyUnique (l : List String) : (pyUnique l).Nodup :=
  nodup_pyUniqueAux [] l

/-! ## Lemmas about the interpreter -/

theorem postValidate_col_valid (question : String) (kvs : List (String × JsonVal)) :
    (postValidate question kvs).1 ∈ (["AETERM", "AESOC", "AESEV", "AEDECOD"] : List String) ∨
      ((postValidate question kvs).1 = "USUBJID" ∧ hasSubjectWord question = true) := by
  unfold postValidate
  generalize pyStrip (pyStr (dictGet kvs "target_column" (.jstr ""))) = c0
  dsimp only
  by_cases h1 : MAPPABLE_COLS.contains c0
  · rw [if_neg (not_not_intro h1)]
    by_cases h2 : c0 = "USUBJID"
    · cases hw : hasSubjectWord question with
      | true =>
        simp only [Bool.not_true, Bool.and_false, Bool.false_eq_true, if_false]
        exact Or.inr ⟨h2, trivial⟩
      | false =>
        simp only [h2, hw, decide_True, Bool.not_false, Bool.and_true, if_true]
        left; decide
    · have h2b : (decide (c0 = "USUBJID")) = false := decide_eq_false h2
      simp only [h2b, Bool.false_and, Bool.false_eq_true, if_false]
      left
      have hm : c0 ∈ MAPPABLE_COLS := contains_iff_mem.mp h1
      simp only [MAPPABLE_COLS, List.mem_cons, List.not_mem_nil, or_false] at hm
      rcases hm with rfl | rfl | rfl | rfl | rfl
      · exact absurd rfl h2
      · decide
      · decide
      · decide
      · decide
  · rw [if_pos h1]
    have hne : (decide (("AETERM" : String) = "USUBJID")) = false := by decide
    simp only [hne, Bool.false_and, Bool.false_eq_true, if_false]
    left; decide

theorem parseQuestion_false (e : Except Unit String) (df : List Row) (q : String) :
    parseQuestion false e df q = parseQuestion true (.ok (mockLlm df q)) df q := rfl

theorem parseQuestion_ok_raw (df : List Row) (q raw : String) :
    parseQuestion true (.ok raw) df q =
      match jsonParse ((extractObj raw).getD raw) with
      | none => .error .jsonDecode
      | some (.jobj kvs) => .ok (postValidate q kvs)
      | some _ => .error .attrGet := by
  unfold parseQuestion
  dsimp only [bind, Except.bind, pure, Except.pure]
  cases hj : jsonParse ((extractObj raw).getD raw) with
  | none => rfl
  | some j => cases j <;> rfl

/-! ## Lemmas about the executor -/

/-- Claim-side phrasing of the exact-match condition: the lowercased
filter value equals the lowercasing of some non-missing value of the
target column. -/
def lowerValuePresent (df : List Row) (c : Col) (fv : String) : Prop :=
  ∃ r ∈ df, (getCol r c).map pyLower = some (pyLower fv)

instance (df : List Row) (c : Col) (fv : String) :
    Decidable (lowerValuePresent df c fv) :=
  List.decidableBEx _ df

theorem exactMode_iff_lowerValuePresent (df : List Row) (c : Col) (fv : String) :
    exactMode df c fv = true ↔ lowerValuePresent df c fv := by
  unfold exactMode lowerValuePresent uniqLower presentVals
  rw [contains_iff_mem, mem_pyUnique, List.mem_map]
  constructor
  · rintro ⟨s, hs, hlow⟩
    rcases List.mem_filterMap.mp hs with ⟨r, hr, hg⟩
    exact ⟨r, hr, by rw [hg, Option.map_some', hlow]⟩
  · rintro ⟨r, hr, hmap⟩
    rcases Option.map_eq_some'.mp hmap with ⟨s, hs, hlow⟩
    exact ⟨s, List.mem_filterMap.mpr ⟨r, hr, hs⟩, hlow⟩

/-! ## Lemmas about the scorer -/

/-- Claim-side score formula: the size of the intersection of the two
token sets (as finite sets), plus the substring bonus of 2. -/
def specScore (question : String) (c : Col) : Nat :=
  ((pyFindAll alnumLower (pyLower question)).toFinset ∩
      (pyFindAll alnumLower (pyLower (c.name ++ " " ++ schemaDesc c))).toFinset).card +
    (if pyIn (pyLower c.name) (pyLower question) then 2 else 0)

/-- Position of a column in the schema declaration order. -/
def colIdx : Col → Nat
  | .USUBJID => 0
  | .AETERM => 1
  | .AESOC => 2
  | .AESEV => 3
  | .AEDECOD => 4

theorem interCount_eq_card_inter (A B : List String) :
    interCount (pyUnique A) B = (A.toFinset ∩ B.toFinset).card := by
  unfold interCount
  have hndf : ((pyUnique A).filter (fun t => B.contains t)).Nodup :=
    (nodup_pyUnique A).filter _
  rw [← List.toFinset_card_of_nodup hndf]
  congr 1
  ext x
  simp only [List.mem_toFinset, List.mem_filter, mem_pyUnique, Finset.mem_inter,
    contains_iff_mem]

theorem scoreCol_eq_specScore (q : String) (c : Col) : scoreCol q c = specScore q c := by
  unfold scoreCol specScore tokSet
  dsimp only
  rw [interCount_eq_card_inter]

/-! ## Lemmas about the value-extraction candidates -/

theorem mem_insertLenDesc {x y : String} {l : List String} :
    x ∈ insertLenDesc y l ↔ x = y ∨ x ∈ l := by
  induction l with
  | nil => simp [insertLenDesc]
  | cons z zs ih =>
    unfold insertLenDesc
    by_cases h : z.length ≤ y.length
    · rw [if_pos h]; simp [List.mem_cons]
    · rw [if_neg h]; simp only [List.mem_cons, ih]; tauto

theorem mem_sortLenDesc {x : String} {l : List String} :
    x ∈ sortLenDesc l ↔ x ∈ l := by
  induction l with
  | nil => simp [sortLenDesc]
  | cons y ys ih =>
    show x ∈ insertLenDesc y (sortLenDesc ys) ↔ _
    rw [mem_insertLenDesc, ih, List.mem_cons]

theorem pairwise_insertLenDesc {y : String} {l : List String}
    (h : List.Pairwise (fun a b => b.length ≤ a.length) l) :
    List.Pairwise (fun a b => b.length ≤ a.length) (insertLenDesc y l) := by
  induction l with
  | nil => simp [insertLenDesc]
  | cons z zs ih =>
    unfold insertLenDesc
    rcases List.pairwise_cons.mp h with ⟨hz, hzs⟩
    by_cases hle : z.length ≤ y.length
    · rw [if_pos hle]
      refine List.pairwise_cons.mpr ⟨?_, h⟩
      intro b hb
      rcases List.mem_cons.mp hb with rfl | hb
      · exact hle
      · exact le_trans (hz b hb) hle
    · rw [if_neg hle]
      refine List.pairwise_cons.mpr ⟨?_, ih hzs⟩
      intro b hb
      rcases mem_insertLenDesc.mp hb with rfl | hb
      · omega
      · exact hz b hb

theorem pairwise_sortLenDesc (l : List String) :
    List.Pairwise (fun a b => b.length ≤ a.length) (sortLenDesc l) := by
  induction l with
  | nil => simp [sortLenDesc]
  | cons y ys ih => exact pairwise_insertLenDesc ih

theorem nodup_insertLenDesc {y : String} {l : List String} (hy : y ∉ l)
    (h : l.Nodup) : (insertLenDesc y l).Nodup := by
  induction l with
  | nil => simp [insertLenDesc]
  | cons z zs ih =>
    unfold insertLenDesc
    rcases List.nodup_cons.mp h with ⟨hz, hzs⟩
    by_cases hle : z.length ≤ y.length
    · rw [if_pos hle]
      exact List.nodup_cons.mpr ⟨hy, h⟩
    · rw [if_neg hle]
      refine List.nodup_cons.mpr ⟨?_, ih (fun hm => hy (List.mem_cons_of_mem _ hm)) hzs⟩
      intro hm
      rcases mem_insertLenDesc.mp hm with rfl | hm
      · exact hy (List.mem_cons_self _ _)
      · exact hz hm

theorem nodup_sortLenDesc {l : List String} (h : l.Nodup) : (sortLenDesc l).Nodup := by
  induction l with
  | nil => simp [sortLenDesc]
  | cons y ys ih =>
    rcases List.nodup_cons.mp h with ⟨hy, hys⟩
    exact nodup_insertLenDesc (fun hm => hy (mem_sortLenDesc.mp hm)) (ih hys)

theorem string_length_zero {s : String} (h : s.length = 0) : s = "" := by
  cases s with
  | mk data =>
    cases data with
    | nil => rfl
    | cons c cs => simp [String.length] at h

/-! ## Whitespace lemmas (for the blank-question behaviour) -/

theorem wsChar_elim {c : Char} (h : wsChar c = true) :
    c = ' ' ∨ c = '\t' ∨ c = '\n' ∨ c = '\r' ∨ c = '\x0b' ∨ c = '\x0c' := by
  have h2 := h
  simp only [wsChar, Bool.or_eq_true, beq_iff_eq] at h2
  tauto

theorem pyLowerChar_ws {c : Char} (h : wsChar c = true) : pyLowerChar c = c := by
  rcases wsChar_elim h with rfl | rfl | rfl | rfl | rfl | rfl <;> decide

theorem ws_pyLowerChar {c : Char} (h : wsChar (pyLowerChar c) = true) : wsChar c = true := by
  unfold pyLowerChar at h
  cases hf : upperLower.find? (fun p => p.1 == c) with
  | none => rw [hf] at h; simpa using h
  | some p =>
    rw [hf] at h
    simp only [Option.map_some', Option.getD_some] at h
    have hws : ∀ q ∈ upperLower, wsChar q.2 = false := by decide
    rw [hws p (List.mem_of_find?_eq_some hf)] at h
    cases h

theorem pyLower_data (s : String) : (pyLower s).data = s.data.map pyLowerChar := rfl

theorem pyLower_ws_chars {s : String} (h : ∀ c ∈ s.data, wsChar c = true) :
    ∀ c ∈ (pyLower s).data, wsChar c = true := by
  intro ch hch
  rw [pyLower_data] at hch
  rcases List.mem_map.mp hch with ⟨a, ha, rfl⟩
  rw [pyLowerChar_ws (h a ha)]
  exact h a ha

theorem tokensAux_nil {p : Char → Bool} {l : List Char} (h : ∀ c ∈ l, p c = false) :
    tokensAux p l [] = [] := by
  induction l with
  | nil => rfl
  | cons c cs ih =>
    unfold tokensAux
    rw [h c (List.mem_cons_self _ _)]
    simp only [Bool.false_eq_true, if_false, List.isEmpty_nil, if_true]
    exact ih (fun x hx => h x (List.mem_cons_of_mem _ hx))

theorem pyFindAll_nil {p : Char → Bool} {s : String} (h : ∀ c ∈ s.data, p c = false) :
    pyFindAll p s = [] := tokensAux_nil h

theorem mem_of_isPrefixOf {n : List Char} :
    ∀ {h : List Char}, n.isPrefixOf h = true → ∀ a ∈ n, a ∈ h := by
  induction n with
  | nil => intro h _ a ha; cases ha
  | cons x xs ih =>
    intro h hp a ha
    cases h with
    | nil => cases hp
    | cons y ys =>
      simp only [List.isPrefixOf, Bool.and_eq_true, beq_iff_eq] at hp
      rcases hp with ⟨rfl, hp2⟩
      rcases List.mem_cons.mp ha with rfl | ha
      · exact List.mem_cons_self _ _
      · exact List.mem_cons_of_mem _ (ih hp2 a ha)

theorem mem_of_listIn {n : List Char} :
    ∀ {h : List Char}, listIn n h = true → ∀ a ∈ n, a ∈ h := by
  intro h
  induction h with
  | nil =>
    intro hin a ha
    cases n with
    | nil => cases ha
    | cons _ _ => cases hin
  | cons c t ih =>
    intro hin a ha
    unfold listIn at hin
    simp only [Bool.or_eq_true] at hin
    rcases hin with h1 | h2
    · exact mem_of_isPrefixOf h1 a ha
    · exact List.mem_cons_of_mem _ (ih h2 a ha)

theorem pyIn_not_ws {needle q : String} (hq : ∀ c ∈ q.data, wsChar c = true)
    {c0 : Char} (hc0 : c0 ∈ needle.data) (hns : wsChar c0 = false) :
    pyIn needle q = false := by
  rcases Bool.eq_false_or_eq_true (pyIn needle q) with h | h
  · have := hq c0 (mem_of_listIn h c0 hc0)
    rw [hns] at this
    cases this
  · exact h

theorem scoreCol_ws_zero {question : String} (hq : ∀ c ∈ question.data, wsChar c = true)
    (c : Col) (hc : c ∈ colsToScore) : scoreCol question c = 0 := by
  have hlq := pyLower_ws_chars hq
  have halnum : ∀ ch ∈ (pyLower question).data, alnumLower ch = false := by
    intro ch hch
    rcases wsChar_elim (hlq ch hch) with rfl | rfl | rfl | rfl | rfl | rfl <;> rfl
  have htok : tokSet alnumLower (pyLower question) = [] := by
    unfold tokSet
    rw [pyFindAll_nil halnum]
    rfl
  unfold scoreCol
  dsimp only
  rw [htok]
  fin_cases hc
  · rw [pyIn_not_ws hlq (show 'a' ∈ (pyLower (Col.name .AETERM)).data by decide) (by decide)]
    rfl
  · rw [pyIn_not_ws hlq (show 'a' ∈ (pyLower (Col.name .AESOC)).data by decide) (by decide)]
    rfl
  · rw [pyIn_not_ws hlq (show 'a' ∈ (pyLower (Col.name .AESEV)).data by decide) (by decide)]
    rfl
  · rw [pyIn_not_ws hlq (show 'a' ∈ (pyLower (Col.name .AEDECOD)).data by decide) (by decide)]
    rfl

theorem mockCol_ws {question : String} (hq : ∀ c ∈ question.data, wsChar c = true) :
    mockCol question = .AETERM := by
  have h0 := scoreCol_ws_zero hq .AETERM (by decide)
  have h1 := scoreCol_ws_zero hq .AESOC (by decide)
  have h2 := scoreCol_ws_zero hq .AESEV (by decide)
  have h3 := scoreCol_ws_zero hq .AEDECOD (by decide)
  unfold mockCol bestFold
  simp only [colsToScore, List.foldl_cons, List.foldl_nil, h0, h1, h2, h3]
  decide

theorem firstQuoted_none {l : List Char} (h : '"' ∉ l) : firstQuoted l = none := by
  induction l with
  | nil => rfl
  | cons c rest ih =>
    have hc : ¬ c = '"' := fun hh => h (hh ▸ List.mem_cons_self _ _)
    unfold firstQuoted
    rw [if_neg hc]
    exact ih (fun hh => h (List.mem_cons_of_mem _ hh))

theorem pyStrip_ws {s : String} (h : ∀ c ∈ s.data, wsChar c = true) : pyStrip s = "" := by
  unfold pyStrip
  have h1 : s.data.dropWhile wsChar = [] := by
    rw [List.dropWhile_eq_nil_iff]
    exact h
  rw [h1]
  rfl

theorem mk_data (s : String) : String.mk s.data = s := by cases s; rfl

/-- On a whitespace-only question, every character of the extracted filter
value is whitespace (the fallback chain produces "" there). -/
theorem mockVal_ws {df : List Row} {question : String}
    (hq : ∀ c ∈ question.data, wsChar c = true) :
    ∀ ch ∈ (mockVal df question).data, wsChar ch = true := by
  have hlq := pyLower_ws_chars hq
  have hquote : '"' ∉ question.data := fun hm => by
    have := hq '"' hm
    cases this
  have hfallback : (match firstQuoted question.data with
      | some s => s
      | none => lastThreeJoined question) = "" := by
    rw [firstQuoted_none hquote]
    have halnum : ∀ ch ∈ question.data, alnumAny ch = false := by
      intro ch hch
      rcases wsChar_elim (hq ch hch) with rfl | rfl | rfl | rfl | rfl | rfl <;> rfl
    unfold lastThreeJoined
    rw [pyFindAll_nil halnum]
    rfl
  unfold mockVal
  dsimp only
  cases hfind : (candVals df (mockCol question)).find?
      (fun v => pyIn (pyLower v) (pyLower question)) with
  | none =>
    simp only [Option.getD_none]
    rw [if_pos trivial, hfallback]
    intro ch hch
    exact absurd hch (by simp)
  | some v0 =>
    simp only [Option.getD_some]
    by_cases hv : v0 = ""
    · rw [if_pos hv, hfallback]
      intro ch hch
      exact absurd hch (by simp)
    · rw [if_neg hv]
      intro ch hch
      have hp : pyIn (pyLower v0) (pyLower question) = true :=
        @List.find?_some String (fun v => pyIn (pyLower v) (pyLower question)) v0 _ hfind
      have hm : pyLowerChar ch ∈ (pyLower v0).data := by
        rw [pyLower_data]
        exact List.mem_map_of_mem _ hch
      have h2 : pyLowerChar ch ∈ (pyLower question).data := mem_of_listIn hp _ hm
      exact ws_pyLowerChar (hlq _ h2)

/-! ## Round trip: the fallback JSON text parses back to the two fields -/

theorem parseJStrAux_step {c : Char} (f : Nat) (L : List Char)
    (h1 : ¬ c = '"') (h2 : ¬ c = '\\') (h3 : ¬ c.toNat < 0x20) :
    parseJStrAux (f + 1) (c :: L) = (parseJStrAux f L).map (fun p => (c :: p.1, p.2)) := by
  simp only [parseJStrAux]
  rw [if_neg h1, if_neg h2, if_neg h3]

/-- A run of plain characters (no quote, no backslash, no control) parses
as itself up to the closing quote, under any fuel above its length. -/
theorem parseJStrAux_plain (k : List Char)
    (hk : k.all (fun c => (c != '"') && (c != '\\') && decide (0x20 ≤ c.toNat)) = true) :
    ∀ fuel rest, k.length < fuel →
      parseJStrAux fuel (k ++ '"' :: rest) = some (k, rest) := by
  induction k with
  | nil =>
    intro fuel rest hf
    obtain ⟨f, rfl⟩ : ∃ f, fuel = f + 1 := ⟨fuel - 1, by omega⟩
    rfl
  | cons c cs ih =>
    intro fuel rest hf
    obtain ⟨f, rfl⟩ : ∃ f, fuel = f + 1 := ⟨fuel - 1, by omega⟩
    rw [List.all_cons, Bool.and_eq_true] at hk
    rcases hk with ⟨hc, hcs⟩
    rw [Bool.and_eq_true] at hc
    rcases hc with ⟨hc12, hc3⟩
    rw [Bool.and_eq_true] at hc12
    rcases hc12 with ⟨hc1, hc2⟩
    have h1 : ¬ c = '"' := bne_iff_ne.mp hc1
    have h2 : ¬ c = '\\' := bne_iff_ne.mp hc2
    have h3 : ¬ c.toNat < 0x20 := by
      have := of_decide_eq_true hc3
      omega
    have hfc : cs.length < f := by
      simp only [List.length_cons] at hf
      omega
    rw [List.cons_append, parseJStrAux_step f _ h1 h2 h3, ih hcs f rest hfc]
    rfl

/-- The `json.dumps` escape of a whitespace-only character list parses
back to exactly that list, under any fuel above the escape's length. -/
theorem esc_parse_ws (l : List Char) (h : ∀ c ∈ l, wsChar c = true) :
    ∀ fuel rest, (l.flatMap escChar).length < fuel →
      parseJStrAux fuel (l.flatMap escChar ++ '"' :: rest) = some (l, rest) := by
  induction l with
  | nil =>
    intro fuel rest hf
    obtain ⟨f, rfl⟩ : ∃ f, fuel = f + 1 := ⟨fuel - 1, by omega⟩
    rfl
  | cons c cs ih =>
    intro fuel rest hf
    have hc := h c (List.mem_cons_self _ _)
    have hcs : ∀ x ∈ cs, wsChar x = true := fun x hx => h x (List.mem_cons_of_mem _ hx)
    rw [List.flatMap_cons] at hf ⊢
    rcases wsChar_elim hc with rfl | rfl | rfl | rfl | rfl | rfl
    · rw [show escChar ' ' = [' '] from rfl] at hf ⊢
      rw [List.append_assoc]
      rw [List.length_append] at hf
      simp only [List.length_cons, List.length_nil] at hf
      obtain ⟨f, rfl⟩ : ∃ f, fuel = f + 1 := ⟨fuel - 1, by omega⟩
      have hstep : parseJStrAux (f + 1) ([' '] ++ (cs.flatMap escChar ++ '"' :: rest))
          = (parseJStrAux f (cs.flatMap escChar ++ '"' :: rest)).map
              (fun p => (' ' :: p.1, p.2)) := rfl
      rw [hstep, ih hcs f rest (by omega)]
      rfl
    · rw [show escChar '\t' = ['\\', 't'] from rfl] at hf ⊢
      rw [List.append_assoc]
      rw [List.length_append] at hf
      simp only [List.length_cons, List.length_nil] at hf
      obtain ⟨f, rfl⟩ : ∃ f, fuel = f + 1 := ⟨fuel - 1, by omega⟩
      have hstep : parseJStrAux (f + 1) (['\\', 't'] ++ (cs.flatMap escChar ++ '"' :: rest))
          = (parseJStrAux f (cs.flatMap escChar ++ '"' :: rest)).map
              (fun p => ('\t' :: p.1, p.2)) := rfl
      rw [hstep, ih hcs f rest (by omega)]
      rfl
    · rw [show escChar '\n' = ['\\', 'n'] from rfl] at hf ⊢
      rw [List.append_assoc]
      rw [List.length_append] at hf
      simp only [List.length_cons, List.length_nil] at hf
      obtain ⟨f, rfl⟩ : ∃ f, fuel = f + 1 := ⟨fuel - 1, by omega⟩
      have hstep : parseJStrAux (f + 1) (['\\', 'n'] ++ (cs.flatMap escChar ++ '"' :: rest))
          = (parseJStrAux f (cs.flatMap escChar ++ '"' :: rest)).map
              (fun p => ('\n' :: p.1, p.2)) := rfl
      rw [hstep, ih hcs f rest (by omega)]
      rfl
    · rw [show escChar '\r' = ['\\', 'r'] from rfl] at hf ⊢
      rw [List.append_assoc]
      rw [List.length_append] at hf
      simp only [List.length_cons, List.length_nil] at hf
      obtain ⟨f, rfl⟩ : ∃ f, fuel = f + 1 := ⟨fuel - 1, by omega⟩
      have hstep : parseJStrAux (f + 1) (['\\', 'r'] ++ (cs.flatMap escChar ++ '"' :: rest))
          = (parseJStrAux f (cs.flatMap escChar ++ '"' :: rest)).map
              (fun p => ('\r' :: p.1, p.2)) := rfl
      rw [hstep, ih hcs f rest (by omega)]
      rfl
    · rw [show escChar '\x0b' = ['\\', 'u', '0', '0', '0', 'b'] from rfl] at hf ⊢
      rw [List.append_assoc]
      rw [List.length_append] at hf
      simp only [List.length_cons, List.length_nil] at hf
      obtain ⟨f, rfl⟩ : ∃ f, fuel = f + 1 := ⟨fuel - 1, by omega⟩
      have hstep : parseJStrAux (f + 1)
            (['\\', 'u', '0', '0', '0', 'b'] ++ (cs.flatMap escChar ++ '"' :: rest))
          = (parseJStrAux f (cs.flatMap escChar ++ '"' :: rest)).map
              (fun p => (Char.ofNat 11 :: p.1, p.2)) := rfl
      have h11 : Char.ofNat 11 = '\x0b' := by decide
      rw [hstep, ih hcs f rest (by omega)]
      simp only [Option.map_some', h11]
    · rw [show escChar '\x0c' = ['\\', 'f'] from rfl] at hf ⊢
      rw [List.append_assoc]
      rw [List.length_append] at hf
      simp only [List.length_cons, List.length_nil] at hf
      obtain ⟨f, rfl⟩ : ∃ f, fuel = f + 1 := ⟨fuel - 1, by omega⟩
      have hstep : parseJStrAux (f + 1) (['\\', 'f'] ++ (cs.flatMap escChar ++ '"' :: rest))
          = (parseJStrAux f (cs.flatMap escChar ++ '"' :: rest)).map
              (fun p => ('\x0c' :: p.1, p.2)) := rfl
      rw [hstep, ih hcs f rest (by omega)]
      rfl

set_option maxHeartbeats 1000000 in
/-- The fallback JSON text for a whitespace-only filter value parses back
to the two-field object (`json.loads` inverts `json.dumps` here). -/
theorem jsonParse_dumps_ws (val : String) (hv : ∀ c ∈ val.data, wsChar c = true) :
    jsonParse (jsonDumps2 "AETERM" val)
      = some (.jobj [("target_column", .jstr "AETERM"), ("filter_value", .jstr val)]) := by
  have hstr : parseJStrAux (((val.data.flatMap escChar ++ '"' :: ['\x7d']).length) + 1)
      (val.data.flatMap escChar ++ '"' :: ['\x7d']) = some (val.data, ['\x7d']) := by
    apply esc_parse_ws val.data hv
    rw [List.length_append]
    omega
  have k2 : ∀ f, parseJVal (f + 1) (' ' :: '"' :: (val.data.flatMap escChar ++ '"' :: ['\x7d']))
      = some (.jstr val, ['\x7d']) := by
    intro f
    have hb : parseJVal (f + 1) (' ' :: '"' :: (val.data.flatMap escChar ++ '"' :: ['\x7d']))
        = (parseJStrAux (((val.data.flatMap escChar ++ '"' :: ['\x7d']).length) + 1)
            (val.data.flatMap escChar ++ '"' :: ['\x7d'])).map
            (fun p => (JsonVal.jstr (String.mk p.1), p.2)) := rfl
    rw [hb, hstr]
    simp only [Option.map_some', mk_data]
  have hmid : jsonParse (jsonDumps2 "AETERM" val)
      = (match (match parseJVal (((val.data.flatMap escChar ++ '"' :: ['\x7d']).length) + 42 + 1) (' ' :: '"' :: (val.data.flatMap escChar ++ '"' :: ['\x7d'])) with
          | none => none
          | some (v, r4) =>
            (match r4.dropWhile jsonWsChar with
             | [] => none
             | c3 :: r5 =>
               if c3 = ',' then
                 parseJMembers (((val.data.flatMap escChar ++ '"' :: ['\x7d']).length) + 42 + 1)
                   r5 (insertKV [("target_column", JsonVal.jstr "AETERM")] "filter_value" v)
               else if c3 = '\x7d' then
                 some (JsonVal.jobj
                   (insertKV [("target_column", JsonVal.jstr "AETERM")] "filter_value" v), r5)
               else none)) with
        | some (v2, rest2) =>
          if (rest2.dropWhile jsonWsChar).isEmpty then some v2 else none
        | none => none) := rfl
  rw [hmid, k2 (((val.data.flatMap escChar ++ '"' :: ['\x7d']).length) + 42)]
  rfl

/-- A string of the form `... brace, middle, closing brace ...` is returned
whole by the object-substring extraction. -/
theorem extractObj_shape (mid : List Char) (s : String)
    (h : s.data = '\x7b' :: (mid ++ ['\x7d'])) : extractObj s = some s := by
  unfold extractObj
  rw [h, List.dropWhile_cons, if_neg (by decide)]
  dsimp only
  rw [List.reverse_append]
  rw [show (['\x7d'] : List Char).reverse = ['\x7d'] from rfl]
  rw [List.cons_append, List.nil_append, List.dropWhile_cons, if_neg (by decide)]
  dsimp only
  rw [List.reverse_cons, List.reverse_reverse, ← h, mk_data]

theorem extractObj_dumps (v : String) :
    extractObj (jsonDumps2 "AETERM" v) = some (jsonDumps2 "AETERM" v) := by
  apply extractObj_shape
    ("\"target_column\": \"AETERM\", \"filter_value\": \"".data ++ (v.data.flatMap escChar ++ ['"']))
  have base : (jsonDumps2 "AETERM" v).data
      = '\x7b' :: ("\"target_column\": \"AETERM\", \"filter_value\": \"".data
          ++ (v.data.flatMap escChar ++ ['"', '\x7d'])) := rfl
  rw [base, List.append_assoc, List.append_assoc]
  rfl

/-! ## Claim theorems -/

/-- C1 (code bug): the source's own comment says "use mock LLM if no API
key or if LLM call fails for any reason", but `parse_question` has no
handler around `self._call_llm`: when the collaborator path is active and
the call raises, the exception propagates to the caller instead of
falling back to the deterministic scorer. -/
theorem parse_question_collab_failure_propagates (df : List Row) (question : String) :
    parseQuestion true (Except.error ()) df question = Except.error PyErr.collab := rfl

/-- C4 (code bug): a row whose target-column value is missing IS selected
by the substring branch — `astype(str)` coerces the missing value to the
text "nan" before `na=False` could exclude it, and "nan" contains the
empty filter value — even though the branch taken is the partial-match
one (`exactMode` is `false`).  The claim (and the `na=False` argument in
the source) intend such rows never to match. -/
theorem execute_missing_row_matches_empty_filter :
    exactMode dfMissing .AESEV "" = false ∧ execute dfMissing .AESEV "" = (1, ["S1"]) :=
  ⟨rfl, rfl⟩

/-- C6: for every dataset, target column and filter value, `execute`
returns `(count, subject_ids)` where `count` equals the length of
`subject_ids`, `subject_ids` contains no duplicate, and its members are
exactly the non-missing subject identifiers of the selected rows (missing
identifiers are dropped). -/
theorem execute_count_and_unique_ids (df : List Row) (c : Col) (fv : String) :
    (execute df c fv).1 = (execute df c fv).2.length ∧
    (execute df c fv).2.Nodup ∧
    ∀ s : String, s ∈ (execute df c fv).2 ↔
      ∃ r ∈ selectedRows df c fv, r.usubjid = some s := by
  refine ⟨rfl, nodup_pyUnique _, fun s => ?_⟩
  show s ∈ pyUnique ((selectedRows df c fv).filterMap (fun r => r.usubjid)) ↔ _
  rw [mem_pyUnique, List.mem_filterMap]

/-- C2: on both interpretation paths (collaborator output arbitrary, or
the deterministic fallback), whenever `parse_question` returns, its
`target_column` is one of the four non-identifier mappable columns, or it
is "USUBJID" and then the question contains the literal words "usubjid"
or "subject id" (case-insensitively, as whole words — the source regex
uses word boundaries); any other column has been overridden to "AETERM". -/
theorem parse_question_target_column_valid (useLlm : Bool) (llmResp : Except Unit String)
    (df : List Row) (question col val : String)
    (h : parseQuestion useLlm llmResp df question = Except.ok (col, val)) :
    col ∈ (["AETERM", "AESOC", "AESEV", "AEDECOD"] : List String) ∨
      (col = "USUBJID" ∧ hasSubjectWord question = true) := by
  have main : ∀ raw, parseQuestion true (.ok raw) df question = Except.ok (col, val) →
      col ∈ (["AETERM", "AESOC", "AESEV", "AEDECOD"] : List String) ∨
        (col = "USUBJID" ∧ hasSubjectWord question = true) := by
    intro raw hr
    rw [parseQuestion_ok_raw] at hr
    split at hr
    · exact absurd hr (by simp)
    · rename_i kvs heq
      have hp := Except.ok.inj hr
      have hcol : col = (postValidate question kvs).1 := by rw [hp]
      rw [hcol]
      exact postValidate_col_valid question kvs
    · exact absurd hr (by simp)
  cases useLlm with
  | false => exact main (mockLlm df question) (parseQuestion_false llmResp df question ▸ h)
  | true =>
    cases llmResp with
    | error e =>
      have hc : parseQuestion true (.error e) df question = Except.error PyErr.collab := rfl
      rw [hc] at h
      exact absurd h (by simp)
    | ok raw => exact main raw h

/-- Witness for C2: a run that returns, with the conclusion instantiated. -/
theorem parse_question_target_column_valid_w :
    "AETERM" ∈ (["AETERM", "AESOC", "AESEV", "AEDECOD"] : List String) ∨
      ("AETERM" = "USUBJID" ∧ hasSubjectWord "Which subjects experienced Headache?" = true) :=
  parse_question_target_column_valid false (.error ()) dfEx
    "Which subjects experienced Headache?" "AETERM" "Headache" (by rfl)

/-- C3: `execute` uses exact-match priority.  For each row carrying a
(non-missing) value `v` in the target column: when the lowercased filter
value equals some distinct lowercased non-missing column value, the row is
selected exactly when `v` equals the filter value case-insensitively (no
superset matches); otherwise the row is selected exactly when `v` contains
the filter value as a case-insensitive substring (`pyIn` models
`contains(re.escape(fv), case=False)`, i.e. the escaped pattern matches
literally). -/
theorem execute_exact_then_partial (df : List Row) (c : Col) (fv : String) (r : Row)
    (hr : r ∈ df) (v : String) (hv : getCol r c = some v) :
    (lowerValuePresent df c fv →
      (r ∈ selectedRows df c fv ↔ pyLower v = pyLower fv)) ∧
    (¬ lowerValuePresent df c fv →
      (r ∈ selectedRows df c fv ↔ pyIn (pyLower fv) (pyLower v) = true)) := by
  have hmem : r ∈ selectedRows df c fv ↔ rowMask df c fv r = true := by
    unfold selectedRows
    rw [List.mem_filter]
    exact ⟨fun h => h.2, fun h => ⟨hr, h⟩⟩
  have htext : toText (getCol r c) = v := by rw [hv]; rfl
  constructor
  · intro hex
    have he : exactMode df c fv = true := (exactMode_iff_lowerValuePresent df c fv).mpr hex
    rw [hmem]
    unfold rowMask
    rw [he, htext]
    simp only [if_true]
    exact beq_iff_eq
  · intro hnex
    have he : exactMode df c fv = false := by
      rcases Bool.eq_false_or_eq_true (exactMode df c fv) with h | h
      · exact absurd ((exactMode_iff_lowerValuePresent df c fv).mp h) hnex
      · exact h
    rw [hmem]
    unfold rowMask
    rw [he, htext]
    simp

/-- Witness for C3: the exact branch on a concrete dataset. -/
theorem execute_exact_then_partial_w :
    (⟨some "S1", some "Headache", some "Nervous system disorders", some "MILD",
        some "Headache"⟩ : Row) ∈ selectedRows dfEx .AETERM "HEADACHE" ↔
      pyLower "Headache" = pyLower "HEADACHE" :=
  ( execute_exact_then_partial dfEx .AETERM "HEADACHE"
    ⟨some "S1", some "Headache", some "Nervous system disorders", some "MILD",
      some "Headache"⟩ (by decide) "Headache" rfl).1 (by decide)

/-- C9: the Matcher/Scorer is a pure, deterministic function of the
question and the dataset snapshot: two runs on equal inputs yield the
same structured query.  Purity is witnessed by the embedding itself —
`_mock_llm` reads only its question and the dataframe, with no hidden
state or randomness, so it embeds as a mathematical function. -/
theorem mock_llm_deterministic (q1 q2 : String) (df1 df2 : List Row)
    (hq : q1 = q2) (hdf : df1 = df2) : mockLlm df1 q1 = mockLlm df2 q2 := by
  rw [hq, hdf]

/-- Witness for C9 on a concrete question and dataset. -/
theorem mock_llm_deterministic_w :
    mockLlm dfEx "Which subjects experienced Headache?" =
      mockLlm dfEx "Which subjects experienced Headache?" :=
  mock_llm_deterministic _ _ _ _ rfl rfl

/-- C5 counterexample: a collaborator response that is a valid JSON string
containing braces.  The code extracts "\x7bb\x7d", fails to parse it, and
propagates the hard error — it does NOT re-attempt the whole raw text,
although that parse would have succeeded.  This refutes "if that parse
fails, the entire raw text is parsed as the JSON payload instead". -/
theorem parse_question_no_raw_retry_cex :
    extractObj "\"a\x7bb\x7d\"" = some "\x7bb\x7d" ∧
    jsonParse "\x7bb\x7d" = none ∧
    jsonParse "\"a\x7bb\x7d\"" = some (.jstr "a\x7bb\x7d") ∧
    parseQuestion true (.ok "\"a\x7bb\x7d\"") dfEx "q" = .error .jsonDecode :=
  ⟨rfl, rfl, rfl, rfl⟩

/-- C5 (amended): `parse_question` parses exactly one payload — the first
JSON-object-shaped substring when one exists, and the entire raw text
only when no object-shaped substring is found; a hard parsing error
propagates exactly when that single parse fails (there is no raw-text
re-attempt after a failed substring parse). -/
theorem parse_question_single_parse_attempt (df : List Row) (q raw : String) :
    parseQuestion true (.ok raw) df q = .error .jsonDecode ↔
      jsonParse ((extractObj raw).getD raw) = none := by
  rw [parseQuestion_ok_raw]
  cases hj : jsonParse ((extractObj raw).getD raw) with
  | none => simp
  | some j => cases j <;> simp

/-- C7: the Matcher/Scorer's column choice.  Each candidate's score equals
the size of the intersection of the question token set and the schema
token set plus the substring bonus of 2 (`specScore`), and the selected
column is the first maximiser in schema-declaration order: it attains the
maximum score, and every candidate declared strictly earlier scores
strictly lower (so ties keep the earliest-seen candidate, "AETERM" being
the initial default). -/
theorem mock_col_first_argmax (q : String) :
    (∀ c ∈ colsToScore, scoreCol q c = specScore q c) ∧
    mockCol q ∈ colsToScore ∧
    (∀ c ∈ colsToScore, scoreCol q c ≤ scoreCol q (mockCol q)) ∧
    (∀ c ∈ colsToScore, colIdx c < colIdx (mockCol q) →
      scoreCol q c < scoreCol q (mockCol q)) := by
  refine ⟨fun c _ => scoreCol_eq_specScore q c, ?_⟩
  unfold mockCol bestFold
  simp only [colsToScore, List.foldl_cons, List.foldl_nil]
  have h0 : ((scoreCol q .AETERM : Int) > (-1 : Int)) := by
    have := Int.natCast_nonneg (scoreCol q .AETERM); omega
  rw [if_pos h0]
  by_cases h1 : ((scoreCol q .AESOC : Int) > (scoreCol q .AETERM : Int))
  · rw [if_pos h1]
    by_cases h2 : ((scoreCol q .AESEV : Int) > (scoreCol q .AESOC : Int))
    · rw [if_pos h2]
      by_cases h3 : ((scoreCol q .AEDECOD : Int) > (scoreCol q .AESEV : Int))
      · rw [if_pos h3]
        dsimp only
        refine ⟨by decide, fun c hc => ?_, fun c hc hlt => ?_⟩ <;> fin_cases hc <;>
          simp only [colIdx] at * <;> omega
      · rw [if_neg h3]
        dsimp only
        refine ⟨by decide, fun c hc => ?_, fun c hc hlt => ?_⟩ <;> fin_cases hc <;>
          simp only [colIdx] at * <;> omega
    · rw [if_neg h2]
      by_cases h3 : ((scoreCol q .AEDECOD : Int) > (scoreCol q .AESOC : Int))
      · rw [if_pos h3]
        dsimp only
        refine ⟨by decide, fun c hc => ?_, fun c hc hlt => ?_⟩ <;> fin_cases hc <;>
          simp only [colIdx] at * <;> omega
      · rw [if_neg h3]
        dsimp only
        refine ⟨by decide, fun c hc => ?_, fun c hc hlt => ?_⟩ <;> fin_cases hc <;>
          simp only [colIdx] at * <;> omega
  · rw [if_neg h1]
    by_cases h2 : ((scoreCol q .AESEV : Int) > (scoreCol q .AETERM : Int))
    · rw [if_pos h2]
      by_cases h3 : ((scoreCol q .AEDECOD : Int) > (scoreCol q .AESEV : Int))
      · rw [if_pos h3]
        dsimp only
        refine ⟨by decide, fun c hc => ?_, fun c hc hlt => ?_⟩ <;> fin_cases hc <;>
          simp only [colIdx] at * <;> omega
      · rw [if_neg h3]
        dsimp only
        refine ⟨by decide, fun c hc => ?_, fun c hc hlt => ?_⟩ <;> fin_cases hc <;>
          simp only [colIdx] at * <;> omega
    · rw [if_neg h2]
      by_cases h3 : ((scoreCol q .AEDECOD : Int) > (scoreCol q .AETERM : Int))
      · rw [if_pos h3]
        dsimp only
        refine ⟨by decide, fun c hc => ?_, fun c hc hlt => ?_⟩ <;> fin_cases hc <;>
          simp only [colIdx] at * <;> omega
      · rw [if_neg h3]
        dsimp only
        refine ⟨by decide, fun c hc => ?_, fun c hc hlt => ?_⟩ <;> fin_cases hc <;>
          simp only [colIdx] at * <;> omega

/-- Witness for C7 on a concrete question. -/
theorem mock_col_first_argmax_w :
    scoreCol "How severe was it?" .AESOC ≤
      scoreCol "How severe was it?" (mockCol "How severe was it?") :=
  (mock_col_first_argmax "How severe was it?").2.2.1 .AESOC (by decide)

/-- C8 counterexample: when the term column's only distinct value is the
empty string, it is the first (and only) candidate that appears in the
question as a case-insensitive substring, yet the chosen filter value is
not it: `if not val` treats the empty match as no match and the
last-three-tokens fallback fires instead.  This refutes "the first one
that is a case-insensitive substring of the question is chosen". -/
theorem mock_val_empty_candidate_cex :
    candVals dfEmptyVal (mockCol "alpha beta gamma") = [""] ∧
    pyIn (pyLower "") (pyLower "alpha beta gamma") = true ∧
    mockVal dfEmptyVal "alpha beta gamma" = "alpha beta gamma" :=
  ⟨rfl, rfl, rfl⟩

/-- C8 (amended): the candidate list is the selected column's distinct
non-missing values as text, sorted by descending length and capped at
5000; the chosen filter value is the first candidate that is a non-empty
case-insensitive substring of the question (an empty-string candidate,
though it always matches, is treated as no match); when no such candidate
exists, the value is the first double-quoted substring of the question,
or failing that the last three alphanumeric tokens joined by spaces. -/
theorem mock_val_extraction (df : List Row) (question : String) :
    (candVals df (mockCol question)).length ≤ 5000 ∧
    (candVals df (mockCol question)).Nodup ∧
    List.Pairwise (fun a b => b.length ≤ a.length) (candVals df (mockCol question)) ∧
    (∀ w ∈ candVals df (mockCol question), ∃ r ∈ df, getCol r (mockCol question) = some w) ∧
    ((∃ w ∈ candVals df (mockCol question),
        w ≠ "" ∧ pyIn (pyLower w) (pyLower question) = true) →
      ∃ pre post, candVals df (mockCol question) = pre ++ mockVal df question :: post ∧
        mockVal df question ≠ "" ∧
        pyIn (pyLower (mockVal df question)) (pyLower question) = true ∧
        ∀ w ∈ pre, pyIn (pyLower w) (pyLower question) = false) ∧
    ((¬ ∃ w ∈ candVals df (mockCol question),
        w ≠ "" ∧ pyIn (pyLower w) (pyLower question) = true) →
      mockVal df question =
        match firstQuoted question.data with
        | some s => s
        | none => lastThreeJoined question) := by
  set CS := candVals df (mockCol question) with hCS
  have hsub : CS.Sublist (sortLenDesc (colVals df (mockCol question))) :=
    List.take_sublist _ _
  have hnodup : CS.Nodup := hsub.nodup (nodup_sortLenDesc (nodup_pyUnique _))
  have hpw : List.Pairwise (fun a b => b.length ≤ a.length) CS :=
    List.Pairwise.sublist hsub (pairwise_sortLenDesc _)
  have hfrom : ∀ w ∈ CS, ∃ r ∈ df, getCol r (mockCol question) = some w := by
    intro w hw
    have h1 : w ∈ sortLenDesc (colVals df (mockCol question)) := List.mem_of_mem_take hw
    exact List.mem_filterMap.mp (mem_pyUnique.mp (mem_sortLenDesc.mp h1))
  refine ⟨List.length_take_le _ _, hnodup, hpw, hfrom, ?_, ?_⟩
  · intro hex
    cases hfind : CS.find? (fun v => pyIn (pyLower v) (pyLower question)) with
    | none =>
      exfalso
      rcases hex with ⟨w, hw, _, hp⟩
      exact (List.find?_eq_none.mp hfind w hw) hp
    | some v0 =>
      have hv0p : pyIn (pyLower v0) (pyLower question) = true :=
        @List.find?_some String (fun v => pyIn (pyLower v) (pyLower question)) v0 CS hfind
      rcases List.find?_eq_some.mp hfind with ⟨_, pre, post, hsplit, hpre⟩
      by_cases hvne : v0 = ""
      · exfalso
        rcases hex with ⟨w, hw, hne, hp⟩
        rw [hsplit] at hw hpw
        rcases List.mem_append.mp hw with hw | hw
        · have := hpre w hw
          simp only [Bool.not_eq_true'] at this
          rw [this] at hp
          cases hp
        · rcases List.mem_cons.mp hw with rfl | hw
          · exact hne hvne
          · rcases List.pairwise_append.mp hpw with ⟨_, hp2, _⟩
            rcases List.pairwise_cons.mp hp2 with ⟨hv0post, _⟩
            have hlen0 : w.length ≤ v0.length := hv0post w hw
            rw [hvne] at hlen0
            exact hne (string_length_zero (Nat.le_zero.mp hlen0))
      · have hval : mockVal df question = v0 := by
          unfold mockVal
          dsimp only
          rw [← hCS, hfind]
          simp only [Option.getD_some]
          rw [if_neg hvne]
        refine ⟨pre, post, ?_, ?_, ?_, ?_⟩
        · rw [hval]; exact hsplit
        · rw [hval]; exact hvne
        · rw [hval]; exact hv0p
        · intro w hw
          have := hpre w hw
          simpa using this
  · intro hnex
    cases hfind : CS.find? (fun v => pyIn (pyLower v) (pyLower question)) with
    | none =>
      unfold mockVal
      dsimp only
      rw [← hCS, hfind]
      simp
    | some v0 =>
      have hv0m : v0 ∈ CS := List.mem_of_find?_eq_some hfind
      have hv0p : pyIn (pyLower v0) (pyLower question) = true :=
        @List.find?_some String (fun v => pyIn (pyLower v) (pyLower question)) v0 CS hfind
      have hv0e : v0 = "" := by
        by_contra hne
        exact hnex ⟨v0, hv0m, hne, hv0p⟩
      unfold mockVal
      dsimp only
      rw [← hCS, hfind, hv0e]
      simp

/-- Witness for C8: the nonempty-match branch instantiated on a concrete
dataset and question. -/
theorem mock_val_extraction_w :
    ∃ pre post,
      candVals dfEx (mockCol "Which subjects experienced Headache?") =
        pre ++ mockVal dfEx "Which subjects experienced Headache?" :: post ∧
      mockVal dfEx "Which subjects experienced Headache?" ≠ "" ∧
      pyIn (pyLower (mockVal dfEx "Which subjects experienced Headache?"))
        (pyLower "Which subjects experienced Headache?") = true ∧
      ∀ w ∈ pre, pyIn (pyLower w) (pyLower "Which subjects experienced Headache?") = false :=
  (mock_val_extraction dfEx "Which subjects experienced Headache?").2.2.2.2.1
    ⟨"Headache", by decide, by decide, by decide⟩

/-- Witness for C6 at a concrete dataset and query. -/
theorem execute_count_and_unique_ids_w :
    (execute dfEx .AETERM "Headache").2.Nodup :=
  (execute_count_and_unique_ids dfEx .AETERM "Headache").2.1

/-- **C10.** On the fallback (non-LLM) path, an empty or whitespace-only
question makes `parse_question` return target column "AETERM" and filter
value "": all column scores are zero so the initial "AETERM" survives the
argmax, the value-extraction fallbacks produce only whitespace characters,
and `str(...).strip()` collapses the value to the empty string. -/
theorem parse_question_blank_question (df : List Row) (e : Except Unit String)
    (question : String) (hq : ∀ c ∈ question.data, wsChar c = true) :
    parseQuestion false e df question = Except.ok ("AETERM", "") := by
  have hvws := @mockVal_ws df question hq
  have hcol : mockCol question = .AETERM := mockCol_ws hq
  have hraw : mockLlm df question = jsonDumps2 "AETERM" (mockVal df question) := by
    unfold mockLlm
    rw [hcol]
    rfl
  rw [parseQuestion_false, parseQuestion_ok_raw, hraw, extractObj_dumps, Option.getD_some,
    jsonParse_dumps_ws (mockVal df question) hvws]
  show Except.ok (postValidate question
      [("target_column", .jstr "AETERM"), ("filter_value", .jstr (mockVal df question))])
    = Except.ok ("AETERM", "")
  have hpv : postValidate question
      [("target_column", JsonVal.jstr "AETERM"),
       ("filter_value", JsonVal.jstr (mockVal df question))] = ("AETERM", "") := by
    unfold postValidate
    dsimp only
    rw [show pyStr (dictGet
        [("target_column", JsonVal.jstr "AETERM"),
         ("filter_value", JsonVal.jstr (mockVal df question))] "filter_value" (.jstr ""))
      = mockVal df question from rfl]
    rw [pyStrip_ws hvws]
    cases hsw : hasSubjectWord question <;> rfl
  rw [hpv]

/-- Witness for C10 at the empty question. -/
theorem parse_question_blank_question_w :
    (∀ c ∈ ("" : String).data, wsChar c = true) ∧
      parseQuestion false (Except.error ()) [] "" = Except.ok ("AETERM", "") :=
  ⟨by decide, parse_question_blank_question [] (.error ()) "" (by decide)⟩

end GenAI
